import Mathlib

/-!
Verification of the token-bucket rate limiter repository.

The embedding follows the Go sources:
* main.go — RateLimiter (token bucket) with NewRateLimiter, Allow, Wait, min.
* middleware/http.go — PerKeyHTTPRateLimiter, a per-key registry built on an
  atomic load-or-store over a map from keys to limiter instances.
* stats package — Stats counters, StatsSnapshot, and the RateLimiterWithStats
  decorator.

Timestamps and durations are modelled in integer nanoseconds (Go time.Time and
time.Duration store nanoseconds). The float expression
int(elapsed.Seconds() * float64(rate)) is modelled exactly over the integers:
elapsedNs * rate divided by 10^9, truncated toward zero (Go float-to-int
conversion), written with Int.tdiv.
-/

namespace RateLimit

/-- Nanosecond timestamp, as produced by time.Now. -/
abbrev Timestamp := Nat

/-- State of the token bucket of main.go: rate, burst and tokens are Go int;
lastUpdate is the time of the previous refill computation. -/
structure RateLimiter where
  rate : Int
  burst : Int
  tokens : Int
  lastUpdate : Timestamp
deriving Repr, DecidableEq

/-- NewRateLimiter from main.go: the bucket starts full (tokens = burst),
lastUpdate = time.Now(). -/
def NewRateLimiter (rate burst : Int) (now : Timestamp) : RateLimiter :=
  { rate := rate, burst := burst, tokens := burst, lastUpdate := now }

/-- The min helper of main.go (lines 59-64). -/
def goMin (a b : Int) : Int := if a < b then a else b

/-- Models tokensToAdd := int(elapsed.Seconds() * float64(rl.rate)) from
main.go line 40: elapsed nanoseconds times rate, divided by 10^9, truncated
toward zero as Go's float-to-int conversion does. -/
def tokensToAdd (rate elapsedNs : Int) : Int :=
  Int.tdiv (elapsedNs * rate) 1000000000

/-- Allow from main.go lines 30-49: measure elapsed time since lastUpdate,
advance lastUpdate to now, refill and cap at burst, then consume one token
when at least one is available. -/
def RateLimiter.Allow (rl : RateLimiter) (now : Timestamp) : Bool × RateLimiter :=
  let elapsed : Int := (now : Int) - (rl.lastUpdate : Int)
  let tokens1 : Int := goMin (rl.tokens + tokensToAdd rl.rate elapsed) rl.burst
  if 0 < tokens1 then
    (true, { rl with tokens := tokens1 - 1, lastUpdate := now })
  else
    (false, { rl with tokens := tokens1, lastUpdate := now })

/-- The token count Allow recomputes from the time elapsed since lastUpdate
(main.go lines 40-41), before the consume decision. -/
def refilledTokens (rl : RateLimiter) (now : Timestamp) : Int :=
  goMin (rl.tokens + tokensToAdd rl.rate ((now : Int) - (rl.lastUpdate : Int))) rl.burst

theorem tokensToAdd_nonneg {rate e : Int} (hr : 0 ≤ rate) (he : 0 ≤ e) :
    0 ≤ tokensToAdd rate e :=
  Int.tdiv_nonneg (mul_nonneg he hr) (by norm_num)

theorem refilledTokens_nonneg (rl : RateLimiter) (now : Timestamp)
    (hrate : 0 ≤ rl.rate) (htok : 0 ≤ rl.tokens) (hcap : rl.tokens ≤ rl.burst)
    (hnow : rl.lastUpdate ≤ now) : 0 ≤ refilledTokens rl now := by
  have he : (0 : Int) ≤ (now : Int) - (rl.lastUpdate : Int) := by
    have : (rl.lastUpdate : Int) ≤ (now : Int) := Int.ofNat_le.mpr hnow
    omega
  have hadd := tokensToAdd_nonneg hrate he
  unfold refilledTokens goMin
  split
  · exact add_nonneg htok hadd
  · exact htok.trans hcap

/-- Allow rewritten through refilledTokens; definitional unfolding of the
source function. -/
theorem Allow_eq (rl : RateLimiter) (now : Timestamp) :
    rl.Allow now =
      if 0 < refilledTokens rl now
      then (true, { rl with tokens := refilledTokens rl now - 1, lastUpdate := now })
      else (false, { rl with tokens := refilledTokens rl now, lastUpdate := now }) :=
  rfl

/-- C1 (TryAcquire contract): every Allow call recomputes the token count from
the elapsed time since lastUpdate; when at least one token is available it
deducts exactly one and returns true, otherwise it returns false and the token
count stays at zero. -/
theorem Allow_contract (rl : RateLimiter) (now : Timestamp)
    (hrate : 0 ≤ rl.rate) (htok : 0 ≤ rl.tokens) (hcap : rl.tokens ≤ rl.burst)
    (hnow : rl.lastUpdate ≤ now) :
    0 ≤ refilledTokens rl now ∧
    (rl.Allow now).1 = decide (0 < refilledTokens rl now) ∧
    (rl.Allow now).2.tokens =
      (if 0 < refilledTokens rl now then refilledTokens rl now - 1 else 0) ∧
    (rl.Allow now).2.lastUpdate = now := by
  have h0 := refilledTokens_nonneg rl now hrate htok hcap hnow
  refine ⟨h0, ?_⟩
  rw [Allow_eq]
  by_cases h : 0 < refilledTokens rl now
  · simp [h]
  · have hz : refilledTokens rl now = 0 := le_antisymm (not_lt.mp h) h0
    simp [h, hz]

/-- Witness for C1 at a concrete bucket state. -/
theorem Allow_contract_witness :
    ((0 : Int) ≤ 2 ∧ (0 : Int) ≤ 3 ∧ (3 : Int) ≤ 5 ∧ (0 : Timestamp) ≤ 7) ∧
    (0 ≤ refilledTokens ⟨2, 5, 3, 0⟩ 7 ∧
     ((⟨2, 5, 3, 0⟩ : RateLimiter).Allow 7).1 = decide (0 < refilledTokens ⟨2, 5, 3, 0⟩ 7) ∧
     ((⟨2, 5, 3, 0⟩ : RateLimiter).Allow 7).2.tokens =
       (if 0 < refilledTokens ⟨2, 5, 3, 0⟩ 7 then refilledTokens ⟨2, 5, 3, 0⟩ 7 - 1 else 0) ∧
     ((⟨2, 5, 3, 0⟩ : RateLimiter).Allow 7).2.lastUpdate = 7) :=
  ⟨by decide, Allow_contract ⟨2, 5, 3, 0⟩ 7 (by decide) (by decide) (by decide) (by decide)⟩

/-- Run n consecutive Allow calls at one timestamp, collecting the results
(models back-to-back calls with no elapsed time). -/
def allowRun (rl : RateLimiter) (now : Timestamp) : Nat → List Bool × RateLimiter
  | 0 => ([], rl)
  | n + 1 =>
    let r := rl.Allow now
    let rest := allowRun r.2 now n
    (r.1 :: rest.1, rest.2)

theorem refilledTokens_at_now (rl : RateLimiter) (now : Timestamp)
    (hlu : rl.lastUpdate = now) (hcap : rl.tokens ≤ rl.burst) :
    refilledTokens rl now = rl.tokens := by
  unfold refilledTokens tokensToAdd goMin
  rw [hlu]
  simp only [sub_self, zero_mul, Int.zero_tdiv, add_zero]
  split
  · rfl
  · omega

theorem allowRun_replicate (now : Timestamp) :
    ∀ (n t : Nat) (rl : RateLimiter), rl.lastUpdate = now → rl.tokens = (t : Int) →
      rl.tokens ≤ rl.burst →
      (allowRun rl now n).1 =
        List.replicate (min t n) true ++ List.replicate (n - t) false := by
  intro n
  induction n with
  | zero => intro t rl _ _ _; simp [allowRun]
  | succ n ih =>
    intro t rl hlu htok hcap
    have hre : refilledTokens rl now = (t : Int) := by
      rw [refilledTokens_at_now rl now hlu hcap, htok]
    cases t with
    | zero =>
      have hnotpos : ¬ (0 : Int) < refilledTokens rl now := by rw [hre]; exact lt_irrefl 0
      have hstep : rl.Allow now =
          (false, { rl with tokens := refilledTokens rl now, lastUpdate := now }) := by
        rw [Allow_eq, if_neg hnotpos]
      have hrest := ih 0 { rl with tokens := refilledTokens rl now, lastUpdate := now }
        rfl (by show refilledTokens rl now = ((0 : Nat) : Int); rw [hre])
        (by show refilledTokens rl now ≤ rl.burst; rw [hre]; omega)
      simp only [allowRun, hstep, hrest]
      simp [List.replicate_succ]
    | succ s =>
      have hpos : (0 : Int) < refilledTokens rl now := by
        rw [hre]; exact_mod_cast Nat.succ_pos s
      have hstep : rl.Allow now =
          (true, { rl with tokens := refilledTokens rl now - 1, lastUpdate := now }) := by
        rw [Allow_eq, if_pos hpos]
      have hrest := ih s { rl with tokens := refilledTokens rl now - 1, lastUpdate := now }
        rfl (by show refilledTokens rl now - 1 = (s : Int); rw [hre]; push_cast; ring)
        (by show refilledTokens rl now - 1 ≤ rl.burst; rw [hre]; omega)
      simp only [allowRun, hstep, hrest]
      simp only [Nat.succ_min_succ, Nat.succ_sub_succ, List.replicate_succ, List.cons_append]

/-- C2 (burst admission): a freshly created bucket with positive capacity C and
positive rate admits exactly C consecutive Allow calls with no elapsed time and
denies the (C+1)th. -/
theorem burst_admission (rate : Int) (C : Nat) (now : Timestamp)
    (hr : 0 < rate) (hC : 0 < C) :
    (allowRun (NewRateLimiter rate (C : Int) now) now (C + 1)).1 =
      List.replicate C true ++ [false] := by
  have h := allowRun_replicate now (C + 1) C (NewRateLimiter rate (C : Int) now)
    rfl rfl le_rfl
  rw [h, Nat.min_eq_left (Nat.le_succ C), Nat.succ_sub (Nat.le_refl C), Nat.sub_self]
  rfl

/-- Witness for C2: capacity 3, rate 5 admits exactly three calls then denies. -/
theorem burst_admission_witness :
    ((0 : Int) < 5 ∧ 0 < 3) ∧
    (allowRun (NewRateLimiter 5 ((3 : Nat) : Int) 0) 0 (3 + 1)).1 =
      List.replicate 3 true ++ [false] :=
  ⟨⟨by decide, by decide⟩, burst_admission 5 3 0 (by decide) (by decide)⟩

/-- Process a list of Allow-call timestamps in order, returning the final
bucket state. -/
def allowTrace (rl : RateLimiter) : List Timestamp → RateLimiter
  | [] => rl
  | t :: ts => allowTrace (rl.Allow t).2 ts

/-- Boolean check that successive call times never move backwards starting
from t0 (non-negative elapsed time between consecutive calls). -/
def chainLE : Nat → List Nat → Bool
  | _, [] => true
  | t, u :: us => decide (t ≤ u) && chainLE u us

theorem refilledTokens_le_burst (rl : RateLimiter) (now : Timestamp) :
    refilledTokens rl now ≤ rl.burst := by
  unfold refilledTokens goMin
  split
  · exact le_of_lt (by assumption)
  · exact le_rfl

theorem Allow_state (rl : RateLimiter) (now : Timestamp)
    (hrate : 0 ≤ rl.rate) (htok : 0 ≤ rl.tokens) (hcap : rl.tokens ≤ rl.burst)
    (hnow : rl.lastUpdate ≤ now) :
    0 ≤ (rl.Allow now).2.tokens ∧ (rl.Allow now).2.tokens ≤ rl.burst ∧
    (rl.Allow now).2.rate = rl.rate ∧ (rl.Allow now).2.burst = rl.burst ∧
    (rl.Allow now).2.lastUpdate = now := by
  have h0 := refilledTokens_nonneg rl now hrate htok hcap hnow
  have hle := refilledTokens_le_burst rl now
  rw [Allow_eq]
  by_cases h : 0 < refilledTokens rl now
  · rw [if_pos h]
    refine ⟨?_, ?_, rfl, rfl, rfl⟩
    · show (0 : Int) ≤ refilledTokens rl now - 1
      omega
    · show refilledTokens rl now - 1 ≤ rl.burst
      omega
  · rw [if_neg h]
    exact ⟨h0, hle, rfl, rfl, rfl⟩

theorem allowTrace_invariant :
    ∀ (ts : List Timestamp) (rl : RateLimiter),
      0 ≤ rl.rate → 0 ≤ rl.tokens → rl.tokens ≤ rl.burst →
      chainLE rl.lastUpdate ts = true →
      0 ≤ (allowTrace rl ts).tokens ∧
      (allowTrace rl ts).tokens ≤ (allowTrace rl ts).burst ∧
      (allowTrace rl ts).burst = rl.burst := by
  intro ts
  induction ts with
  | nil => intro rl _ htok hcap _; exact ⟨htok, hcap, rfl⟩
  | cons t ts ih =>
    intro rl hrate htok hcap hchain
    have hc : rl.lastUpdate ≤ t ∧ chainLE t ts = true := by
      have := hchain
      unfold chainLE at this
      simp only [Bool.and_eq_true, decide_eq_true_eq] at this
      exact this
    obtain ⟨⟨h1, h2, h3, h4, h5⟩⟩ :=
      And.intro (Allow_state rl t hrate htok hcap hc.1) trivial
    have hrec := ih (rl.Allow t).2 (by rw [h3]; exact hrate) h1 (by rw [h4]; exact h2)
      (by rw [h5]; exact hc.2)
    refine ⟨hrec.1, hrec.2.1, ?_⟩
    show (allowTrace (rl.Allow t).2 ts).burst = rl.burst
    rw [hrec.2.2, h4]

/-- C3 (token-bound invariant): a bucket created with positive rate and
capacity keeps its token count in the interval from 0 to capacity after every
sequence of Allow calls whose timestamps never move backwards. -/
theorem tokens_bounded (rate burst : Int) (t0 : Timestamp) (ts : List Timestamp)
    (hr : 0 < rate) (hb : 0 < burst) (hchain : chainLE t0 ts = true) :
    0 ≤ (allowTrace (NewRateLimiter rate burst t0) ts).tokens ∧
    (allowTrace (NewRateLimiter rate burst t0) ts).tokens ≤ burst := by
  have h := allowTrace_invariant ts (NewRateLimiter rate burst t0)
    (le_of_lt hr) (le_of_lt hb) le_rfl hchain
  exact ⟨h.1, le_trans h.2.1 (le_of_eq h.2.2)⟩

/-- Witness for C3 at a concrete bucket and trace, including a long idle gap
before the last call. -/
theorem tokens_bounded_witness :
    ((0 : Int) < 1 ∧ (0 : Int) < 2 ∧ chainLE 0 [0, 1500000000, 9000000000] = true) ∧
    (0 ≤ (allowTrace (NewRateLimiter 1 2 0) [0, 1500000000, 9000000000]).tokens ∧
     (allowTrace (NewRateLimiter 1 2 0) [0, 1500000000, 9000000000]).tokens ≤ 2) :=
  ⟨⟨by decide, by decide, by decide⟩,
   tokens_bounded 1 2 0 [0, 1500000000, 9000000000] (by decide) (by decide) (by decide)⟩

/-- Sleep duration, in milliseconds, between failed Allow attempts inside Wait
(main.go line 55): 1000 divided by rate with Go integer division, which
truncates toward zero. -/
def waitSleepMs (rate : Int) : Int := Int.tdiv 1000 rate

/-- The same sleep duration as a time.Duration in nanoseconds:
time.Duration(1000/rate) * time.Millisecond. -/
def waitSleepNs (rate : Int) : Int := waitSleepMs rate * 1000000

/-- C6 (retry-delay computation): for every positive rate the retry sleep is
the integer-truncated 1000/rate milliseconds, and for every rate above 1000 it
underflows to exactly zero. -/
theorem wait_retry_delay (rate : Int) (h : 0 < rate) :
    waitSleepMs rate = Int.tdiv 1000 rate ∧
    (1000 < rate → waitSleepMs rate = 0 ∧ waitSleepNs rate = 0) := by
  refine ⟨rfl, fun hgt => ?_⟩
  have hz : waitSleepMs rate = 0 := by
    unfold waitSleepMs
    rw [Int.tdiv_eq_ediv (by norm_num) (le_of_lt h)]
    exact Int.ediv_eq_zero_of_lt (by norm_num) hgt
  exact ⟨hz, by unfold waitSleepNs; rw [hz]; ring⟩

/-- Witness for C6 at rate 4000: the computed delay is zero. -/
theorem wait_retry_delay_witness :
    ((0 : Int) < 4000) ∧
    (waitSleepMs 4000 = Int.tdiv 1000 4000 ∧
     (1000 < (4000 : Int) → waitSleepMs 4000 = 0 ∧ waitSleepNs 4000 = 0)) :=
  ⟨by decide, wait_retry_delay 4000 (by decide)⟩

/-- Spec-side model for the refinement comparison of the fractional-accumulation
sentence: a bucket whose token count is a rational number, refilled by exactly
elapsedSeconds * rate with the fractional part retained, following the spec
words; it is not translated from the source, which stores tokens as a Go int. -/
structure FracLimiter where
  rate : Int
  burst : Int
  tokens : ℚ
  lastUpdate : Timestamp
deriving DecidableEq

/-- Spec-side fresh fractional bucket, starting full. -/
def NewFracLimiter (rate burst : Int) (now : Timestamp) : FracLimiter :=
  { rate := rate, burst := burst, tokens := (burst : ℚ), lastUpdate := now }

/-- Spec-side fractional admission check: replenish by the exact rational
elapsedSeconds * rate, cap at capacity, consume one whole token if available. -/
def FracLimiter.Allow (rl : FracLimiter) (now : Timestamp) : Bool × FracLimiter :=
  let elapsedSec : ℚ := (((now : Int) - (rl.lastUpdate : Int) : Int) : ℚ) / 1000000000
  let tokens1 : ℚ := min (rl.tokens + elapsedSec * (rl.rate : ℚ)) ((rl.burst : Int) : ℚ)
  if 1 ≤ tokens1 then (true, { rl with tokens := tokens1 - 1, lastUpdate := now })
  else (false, { rl with tokens := tokens1, lastUpdate := now })

/-- Spec-side trace of fractional admission checks. -/
def fracTrace (rl : FracLimiter) : List Timestamp → FracLimiter
  | [] => rl
  | t :: ts => fracTrace (rl.Allow t).2 ts

/-- C5 counterexample: with rate 1 and capacity 1, calls at 0 s, 0.5 s and
1.0 s. The source bucket truncates each half-token refill to zero and denies
the call at 1.0 s, while a bucket that retains fractional accumulation has a
full token by then and admits it: fractional amounts are truncated, not
retained. -/
theorem frac_accumulation_cex :
    ((allowTrace (NewRateLimiter 1 1 0) [0, 500000000]).Allow 1000000000).1 = false ∧
    ((fracTrace (NewFracLimiter 1 1 0) [0, 500000000]).Allow 1000000000).1 = true := by
  constructor
  · decide
  · have s1 : (NewFracLimiter 1 1 0).Allow 0 =
        (true, { rate := 1, burst := 1, tokens := 0, lastUpdate := 0 }) := by
      unfold NewFracLimiter FracLimiter.Allow
      norm_num
    have s2 : (FracLimiter.Allow { rate := 1, burst := 1, tokens := 0, lastUpdate := 0 }
        500000000) =
        (false, { rate := 1, burst := 1, tokens := 1/2, lastUpdate := 500000000 }) := by
      unfold FracLimiter.Allow
      norm_num [min_def]
    have s3 : (FracLimiter.Allow
        { rate := 1, burst := 1, tokens := 1/2, lastUpdate := 500000000 }
        1000000000).1 = true := by
      unfold FracLimiter.Allow
      norm_num [min_def]
    show ((fracTrace ((NewFracLimiter 1 1 0).Allow 0).2 [500000000]).Allow 1000000000).1 = true
    rw [s1]
    show ((FracLimiter.Allow { rate := 1, burst := 1, tokens := 0, lastUpdate := 0 }
      500000000).2.Allow 1000000000).1 = true
    rw [s2]
    exact s3

/-- C5 amended: the source tracks tokens as an integer; each Allow adds the
truncated value of elapsedSeconds * rate and unconditionally advances
lastUpdate, so an elapsed interval worth less than one whole token adds zero
tokens and its fractional credit is discarded. -/
theorem tokens_truncated (rl : RateLimiter) (now : Timestamp)
    (h1 : rl.lastUpdate ≤ now) (h2 : 0 ≤ rl.rate)
    (h3 : ((now : Int) - (rl.lastUpdate : Int)) * rl.rate < 1000000000) :
    tokensToAdd rl.rate ((now : Int) - (rl.lastUpdate : Int)) = 0 ∧
    refilledTokens rl now = goMin rl.tokens rl.burst ∧
    (rl.Allow now).2.lastUpdate = now := by
  have he : (0 : Int) ≤ (now : Int) - (rl.lastUpdate : Int) := by
    have : (rl.lastUpdate : Int) ≤ (now : Int) := Int.ofNat_le.mpr h1
    omega
  have hadd : tokensToAdd rl.rate ((now : Int) - (rl.lastUpdate : Int)) = 0 := by
    unfold tokensToAdd
    rw [Int.tdiv_eq_ediv (mul_nonneg he h2) (by norm_num)]
    exact Int.ediv_eq_zero_of_lt (mul_nonneg he h2) h3
  refine ⟨hadd, ?_, ?_⟩
  · unfold refilledTokens
    rw [hadd, add_zero]
  · rw [Allow_eq]
    by_cases h : 0 < refilledTokens rl now
    · rw [if_pos h]
    · rw [if_neg h]

/-- Witness for the amended C5: rate 2, elapsed 0.4 s is worth 0.8 tokens,
which truncates to zero added tokens while lastUpdate still advances. -/
theorem tokens_truncated_witness :
    ((0 : Timestamp) ≤ 400000000 ∧ (0 : Int) ≤ 2 ∧
     (((400000000 : Timestamp) : Int) - ((0 : Timestamp) : Int)) * (2 : Int) < 1000000000) ∧
    (tokensToAdd 2 (((400000000 : Timestamp) : Int) - ((0 : Timestamp) : Int)) = 0 ∧
     refilledTokens ⟨2, 5, 1, 0⟩ 400000000 = goMin 1 5 ∧
     ((⟨2, 5, 1, 0⟩ : RateLimiter).Allow 400000000).2.lastUpdate = 400000000) :=
  ⟨⟨by decide, by decide, by decide⟩,
   tokens_truncated ⟨2, 5, 1, 0⟩ 400000000 (by decide) (by decide) (by decide)⟩

/-- Registry of PerKeyHTTPRateLimiter (middleware/http.go): keys map to
limiter instances; instances are identified by the index of the factory
invocation that created them, so identity questions become id equalities. -/
structure PerKeyState where
  limiters : List (String × Nat)
  nextId : Nat
deriving Repr, DecidableEq

/-- The registry a fresh PerKeyHTTPRateLimiter starts with. -/
def emptyPerKey : PerKeyState := { limiters := [], nextId := 0 }

/-- Load of the first matching entry for a key. -/
def findLimiter (m : List (String × Nat)) (key : String) : Option Nat :=
  match m with
  | [] => none
  | (k, v) :: rest => if k = key then some v else findLimiter rest key

/-- LoadOrStore of the registry map: return the existing entry for key
unchanged, otherwise store the candidate and return it; one atomic step. -/
def loadOrStore (m : List (String × Nat)) (key : String) (candidate : Nat) :
    Nat × List (String × Nat) :=
  match findLimiter m key with
  | some v => (v, m)
  | none => (candidate, m ++ [(key, candidate)])

/-- One request through the per-key middleware: the factory is invoked first,
unconditionally, producing the candidate instance (id = nextId), then
LoadOrStore keeps the stored instance when the key is present; the returned
instance is the one checked with Allow. -/
def perKeyStep (st : PerKeyState) (key : String) : Nat × PerKeyState :=
  let candidate := st.nextId
  let r := loadOrStore st.limiters key candidate
  (r.1, { limiters := r.2, nextId := st.nextId + 1 })

/-- Process a trace of request keys, collecting the instance id each request
was checked against. -/
def perKeyRun (st : PerKeyState) : List String → List Nat × PerKeyState
  | [] => ([], st)
  | k :: ks =>
    let r := perKeyStep st k
    let rest := perKeyRun r.2 ks
    (r.1 :: rest.1, rest.2)

theorem findLimiter_append (m l : List (String × Nat)) (key : String) :
    findLimiter (m ++ l) key =
      (findLimiter m key).elim (findLimiter l key) some := by
  induction m with
  | nil => simp [findLimiter]
  | cons p rest ih =>
    obtain ⟨k, v⟩ := p
    by_cases h : k = key
    · simp [findLimiter, h]
    · simpa [findLimiter, h] using ih

theorem perKeyStep_found (st : PerKeyState) (key : String) (v : Nat)
    (hv : findLimiter st.limiters key = some v) :
    (perKeyStep st key).1 = v ∧
    (perKeyStep st key).2.limiters = st.limiters ∧
    (perKeyStep st key).2.nextId = st.nextId + 1 := by
  unfold perKeyStep loadOrStore
  rw [hv]
  exact ⟨rfl, rfl, rfl⟩

theorem perKeyStep_lookup_self (st : PerKeyState) (key : String) :
    findLimiter (perKeyStep st key).2.limiters key = some (perKeyStep st key).1 := by
  unfold perKeyStep loadOrStore
  cases hfind : findLimiter st.limiters key with
  | some v => simpa using hfind
  | none =>
    show findLimiter (st.limiters ++ [(key, st.nextId)]) key = some st.nextId
    rw [findLimiter_append, hfind]
    simp [findLimiter]

theorem perKeyStep_lookup_preserved (st : PerKeyState) (key k : String) (v : Nat)
    (hv : findLimiter st.limiters k = some v) :
    findLimiter (perKeyStep st key).2.limiters k = some v := by
  unfold perKeyStep loadOrStore
  cases hfind : findLimiter st.limiters key with
  | some w => simpa using hv
  | none =>
    show findLimiter (st.limiters ++ [(key, st.nextId)]) k = some v
    rw [findLimiter_append, hv]
    rfl

theorem perKeyRun_lookup_preserved (ks : List String) :
    ∀ (st : PerKeyState) (k : String) (v : Nat),
      findLimiter st.limiters k = some v →
      findLimiter (perKeyRun st ks).2.limiters k = some v := by
  induction ks with
  | nil => intro st k v hv; exact hv
  | cons key ks ih =>
    intro st k v hv
    exact ih (perKeyStep st key).2 k v (perKeyStep_lookup_preserved st key k v hv)

theorem perKeyRun_used_id (ks : List String) :
    ∀ (st : PerKeyState) (i : Nat) (k : String), ks[i]? = some k →
      ∃ v, (perKeyRun st ks).1[i]? = some v ∧
        findLimiter (perKeyRun st ks).2.limiters k = some v := by
  induction ks with
  | nil => intro st i k h; simp at h
  | cons key ks ih =>
    intro st i k h
    cases i with
    | zero =>
      have hk : key = k := by simpa using h
      refine ⟨(perKeyStep st key).1, ?_, ?_⟩
      · show ((perKeyStep st key).1 :: (perKeyRun (perKeyStep st key).2 ks).1)[0]? =
          some (perKeyStep st key).1
        simp
      · subst hk
        exact perKeyRun_lookup_preserved ks (perKeyStep st key).2 key
          (perKeyStep st key).1 (perKeyStep_lookup_self st key)
    | succ i =>
      have hk : ks[i]? = some k := by simpa using h
      obtain ⟨v, hv1, hv2⟩ := ih (perKeyStep st key).2 i k hk
      refine ⟨v, ?_, hv2⟩
      show ((perKeyStep st key).1 :: (perKeyRun (perKeyStep st key).2 ks).1)[i + 1]? = some v
      simpa using hv1

/-- C4 (registry single-instance invariant): a request whose key already has a
stored limiter gets exactly that limiter back with the registry unchanged, and
along any request trace two requests bearing the same key are checked against
the same limiter instance. -/
theorem perKey_single_instance (st : PerKeyState) (key : String) (v : Nat)
    (ks : List String) (i j : Nat) (k : String)
    (hv : findLimiter st.limiters key = some v)
    (hi : ks[i]? = some k) (hj : ks[j]? = some k) :
    ((perKeyStep st key).1 = v ∧ (perKeyStep st key).2.limiters = st.limiters) ∧
    (perKeyRun emptyPerKey ks).1[i]? = (perKeyRun emptyPerKey ks).1[j]? := by
  obtain ⟨h1, h2, _⟩ := perKeyStep_found st key v hv
  refine ⟨⟨h1, h2⟩, ?_⟩
  obtain ⟨vi, hvi1, hvi2⟩ := perKeyRun_used_id ks emptyPerKey i k hi
  obtain ⟨vj, hvj1, hvj2⟩ := perKeyRun_used_id ks emptyPerKey j k hj
  rw [hvi1, hvj1]
  rw [hvi2] at hvj2
  exact congrArg some (Option.some.inj hvj2)

/-- Witness for C4: registry holding instance 7 for key a returns it unchanged,
and in the trace x, y, x both x-requests use the same instance. -/
theorem perKey_single_instance_witness :
    (findLimiter [("a", 7)] "a" = some 7 ∧
     (["x", "y", "x"] : List String)[0]? = some "x" ∧
     (["x", "y", "x"] : List String)[2]? = some "x") ∧
    (((perKeyStep { limiters := [("a", 7)], nextId := 9 } "a").1 = 7 ∧
      (perKeyStep { limiters := [("a", 7)], nextId := 9 } "a").2.limiters = [("a", 7)]) ∧
     (perKeyRun emptyPerKey ["x", "y", "x"]).1[0]? =
       (perKeyRun emptyPerKey ["x", "y", "x"]).1[2]?) :=
  ⟨⟨by decide, by decide, by decide⟩,
   perKey_single_instance { limiters := [("a", 7)], nextId := 9 } "a" 7
     ["x", "y", "x"] 0 2 "x" (by decide) (by decide) (by decide)⟩

theorem perKeyRun_nextId (ks : List String) :
    ∀ st : PerKeyState, (perKeyRun st ks).2.nextId = st.nextId + ks.length := by
  induction ks with
  | nil => intro st; rfl
  | cons key ks ih =>
    intro st
    show (perKeyRun (perKeyStep st key).2 ks).2.nextId = st.nextId + (ks.length + 1)
    rw [ih (perKeyStep st key).2]
    show st.nextId + 1 + ks.length = st.nextId + (ks.length + 1)
    omega

/-- C10 (factory invoked per request): the factory runs once on every request
of a trace, not once per key, and when the key already has a stored limiter the
freshly built candidate is discarded while the stored instance is returned. -/
theorem factory_per_request (st : PerKeyState) (ks : List String)
    (key : String) (v : Nat)
    (hv : findLimiter st.limiters key = some v) :
    (perKeyRun st ks).2.nextId = st.nextId + ks.length ∧
    ((perKeyStep st key).1 = v ∧
     (perKeyStep st key).2.nextId = st.nextId + 1 ∧
     (perKeyStep st key).2.limiters = st.limiters) := by
  obtain ⟨h1, h2, h3⟩ := perKeyStep_found st key v hv
  exact ⟨perKeyRun_nextId ks st, h1, h3, h2⟩

/-- Witness for C10: a three-request trace raises the factory counter by three,
and a request for the present key a returns instance 7, discarding the
candidate. -/
theorem factory_per_request_witness :
    (findLimiter [("a", 7)] "a" = some 7) ∧
    ((perKeyRun { limiters := [("a", 7)], nextId := 9 } ["a", "b", "a"]).2.nextId = 9 + 3 ∧
     ((perKeyStep { limiters := [("a", 7)], nextId := 9 } "a").1 = 7 ∧
      (perKeyStep { limiters := [("a", 7)], nextId := 9 } "a").2.nextId = 9 + 1 ∧
      (perKeyStep { limiters := [("a", 7)], nextId := 9 } "a").2.limiters = [("a", 7)])) :=
  ⟨by decide,
   factory_per_request { limiters := [("a", 7)], nextId := 9 } ["a", "b", "a"] "a" 7 (by decide)⟩

/-- Counter state of the stats package; counters are Go int64, timestamps are
nanoseconds, and the Go zero time is modelled as 0. -/
structure Stats where
  TotalRequests : Int
  AllowedRequests : Int
  DeniedRequests : Int
  StartTime : Timestamp
  LastRequestTime : Timestamp
deriving Repr, DecidableEq

/-- NewStats: zero counters, StartTime = time.Now(), zero LastRequestTime. -/
def NewStats (now : Timestamp) : Stats :=
  { TotalRequests := 0, AllowedRequests := 0, DeniedRequests := 0,
    StartTime := now, LastRequestTime := 0 }

/-- RecordAllowed: bump total and allowed, stamp the activity time. -/
def Stats.RecordAllowed (s : Stats) (now : Timestamp) : Stats :=
  { s with TotalRequests := s.TotalRequests + 1,
           AllowedRequests := s.AllowedRequests + 1,
           LastRequestTime := now }

/-- RecordDenied: bump total and denied, stamp the activity time. -/
def Stats.RecordDenied (s : Stats) (now : Timestamp) : Stats :=
  { s with TotalRequests := s.TotalRequests + 1,
           DeniedRequests := s.DeniedRequests + 1,
           LastRequestTime := now }

/-- Reset: zero every counter, StartTime = time.Now(), zero LastRequestTime. -/
def Stats.Reset (s : Stats) (now : Timestamp) : Stats :=
  { TotalRequests := 0, AllowedRequests := 0, DeniedRequests := 0,
    StartTime := now, LastRequestTime := 0 }

/-- One call against the Stats API, tagged with its wall-clock time. -/
inductive StatsOp where
  | recordAllowed (now : Timestamp)
  | recordDenied (now : Timestamp)
  | reset (now : Timestamp)
deriving Repr, DecidableEq

/-- Apply one Stats call. -/
def Stats.applyOp (s : Stats) : StatsOp → Stats
  | .recordAllowed now => s.RecordAllowed now
  | .recordDenied now => s.RecordDenied now
  | .reset now => s.Reset now

/-- Apply a sequence of Stats calls in order. -/
def Stats.applyOps (s : Stats) : List StatsOp → Stats
  | [] => s
  | op :: ops => (s.applyOp op).applyOps ops

theorem applyOps_consistent (ops : List StatsOp) :
    ∀ s : Stats, s.TotalRequests = s.AllowedRequests + s.DeniedRequests →
      (s.applyOps ops).TotalRequests =
        (s.applyOps ops).AllowedRequests + (s.applyOps ops).DeniedRequests := by
  induction ops with
  | nil => intro s hs; exact hs
  | cons op ops ih =>
    intro s hs
    refine ih (s.applyOp op) ?_
    cases op with
    | recordAllowed now =>
      show s.TotalRequests + 1 = s.AllowedRequests + 1 + s.DeniedRequests
      omega
    | recordDenied now =>
      show s.TotalRequests + 1 = s.AllowedRequests + (s.DeniedRequests + 1)
      omega
    | reset now =>
      show (0 : Int) = 0 + 0
      omega

/-- C7 (stats consistency): from a fresh Stats, any sequence of RecordAllowed,
RecordDenied and Reset calls keeps TotalRequests equal to AllowedRequests plus
DeniedRequests, and each Record call bumps its own counter together with the
total. -/
theorem stats_consistency (t0 : Timestamp) (ops : List StatsOp)
    (s : Stats) (now : Timestamp) :
    ((NewStats t0).applyOps ops).TotalRequests =
      ((NewStats t0).applyOps ops).AllowedRequests +
        ((NewStats t0).applyOps ops).DeniedRequests ∧
    ((s.RecordAllowed now).TotalRequests = s.TotalRequests + 1 ∧
     (s.RecordAllowed now).AllowedRequests = s.AllowedRequests + 1 ∧
     (s.RecordAllowed now).DeniedRequests = s.DeniedRequests) ∧
    ((s.RecordDenied now).TotalRequests = s.TotalRequests + 1 ∧
     (s.RecordDenied now).DeniedRequests = s.DeniedRequests + 1 ∧
     (s.RecordDenied now).AllowedRequests = s.AllowedRequests) := by
  refine ⟨applyOps_consistent ops (NewStats t0) rfl, ⟨rfl, rfl, rfl⟩, rfl, rfl, rfl⟩

/-- A point-in-time snapshot of the stats package; Duration is nanoseconds,
Rate and AcceptanceRatio are the two derived float fields, modelled exactly
over the rationals. -/
structure StatsSnapshot where
  TotalRequests : Int
  AllowedRequests : Int
  DeniedRequests : Int
  StartTime : Timestamp
  LastRequestTime : Timestamp
  Duration : Int
  Rate : ℚ
  AcceptanceRatio : ℚ
deriving Repr, DecidableEq

/-- calculateAcceptanceRatio: allowed over total, zero when nothing was seen. -/
def Stats.calculateAcceptanceRatio (s : Stats) : ℚ :=
  if s.TotalRequests = 0 then 0
  else (s.AllowedRequests : ℚ) / (s.TotalRequests : ℚ)

/-- Duration.Seconds of a nanosecond count, exact over the rationals. -/
def durationSeconds (d : Int) : ℚ := (d : ℚ) / 1000000000

/-- GetSnapshot: duration is the wall time since StartTime unless
LastRequestTime lies strictly after StartTime, in which case it is their
difference; rate divides allowed by the duration in seconds when that is
positive; the acceptance ratio comes from calculateAcceptanceRatio. -/
def Stats.GetSnapshot (s : Stats) (now : Timestamp) : StatsSnapshot :=
  let duration : Int :=
    if s.StartTime < s.LastRequestTime
    then (s.LastRequestTime : Int) - (s.StartTime : Int)
    else (now : Int) - (s.StartTime : Int)
  let rate : ℚ :=
    if 0 < durationSeconds duration
    then (s.AllowedRequests : ℚ) / durationSeconds duration
    else 0
  { TotalRequests := s.TotalRequests, AllowedRequests := s.AllowedRequests,
    DeniedRequests := s.DeniedRequests, StartTime := s.StartTime,
    LastRequestTime := s.LastRequestTime, Duration := duration, Rate := rate,
    AcceptanceRatio := s.calculateAcceptanceRatio }

theorem durationSeconds_pos (d : Int) : 0 < durationSeconds d ↔ 0 < d := by
  unfold durationSeconds
  rw [div_pos_iff]
  constructor
  · rintro (⟨h, _⟩ | ⟨_, h⟩)
    · exact_mod_cast h
    · norm_num at h
  · intro h
    exact Or.inl ⟨by exact_mod_cast h, by norm_num⟩

/-- C8 counterexample: an event recorded at exactly StartTime counts as "at
least one event recorded", yet the snapshot duration is the wall time since
start (here 20 ns), not max(0, lastActivity - startTime) = 0 as claimed. -/
theorem snapshot_duration_cex :
    (((NewStats 10).RecordAllowed 10).GetSnapshot 30).Duration = 20 ∧
    max 0 (((((NewStats 10).RecordAllowed 10).LastRequestTime : Timestamp) : Int) -
      ((((NewStats 10).RecordAllowed 10).StartTime : Timestamp) : Int)) = 0 ∧
    ((NewStats 10).RecordAllowed 10).TotalRequests = 1 := by
  refine ⟨rfl, by decide, rfl⟩

/-- C8 amended (snapshot derived fields): the snapshot duration is
max(0, lastActivity - startTime) when the last activity lies strictly after
startTime — the code's actual test, which agrees with "at least one event
recorded" except when the only activity coincides with startTime — and the
wall time since start otherwise; Rate is allowed divided by the duration in
seconds and zero for a zero duration; AcceptanceRatio is allowed over total
and zero when total is zero — all computed at snapshot time from the raw
state. -/
theorem snapshot_derived (s : Stats) (now : Timestamp) :
    (s.StartTime < s.LastRequestTime →
      (s.GetSnapshot now).Duration =
        max 0 ((s.LastRequestTime : Int) - (s.StartTime : Int))) ∧
    (¬ s.StartTime < s.LastRequestTime →
      (s.GetSnapshot now).Duration = (now : Int) - (s.StartTime : Int)) ∧
    (0 < (s.GetSnapshot now).Duration →
      (s.GetSnapshot now).Rate =
        (s.AllowedRequests : ℚ) / durationSeconds (s.GetSnapshot now).Duration) ∧
    ((s.GetSnapshot now).Duration = 0 → (s.GetSnapshot now).Rate = 0) ∧
    (s.TotalRequests = 0 → (s.GetSnapshot now).AcceptanceRatio = 0) ∧
    (s.TotalRequests ≠ 0 →
      (s.GetSnapshot now).AcceptanceRatio =
        (s.AllowedRequests : ℚ) / (s.TotalRequests : ℚ)) := by
  have hDur : (s.GetSnapshot now).Duration =
      (if s.StartTime < s.LastRequestTime
       then (s.LastRequestTime : Int) - (s.StartTime : Int)
       else (now : Int) - (s.StartTime : Int)) := rfl
  have hRate : (s.GetSnapshot now).Rate =
      (if 0 < durationSeconds (s.GetSnapshot now).Duration
       then (s.AllowedRequests : ℚ) / durationSeconds (s.GetSnapshot now).Duration
       else 0) := rfl
  refine ⟨?_, ?_, ?_, ?_, ?_, ?_⟩
  · intro hlt
    rw [hDur, if_pos hlt]
    have hlt2 : (s.StartTime : Int) < (s.LastRequestTime : Int) := by exact_mod_cast hlt
    have h0 : (0 : Int) ≤ (s.LastRequestTime : Int) - (s.StartTime : Int) := by omega
    exact (max_eq_right h0).symm
  · intro hnlt
    rw [hDur, if_neg hnlt]
  · intro hpos
    rw [hRate, if_pos ((durationSeconds_pos _).mpr hpos)]
  · intro hzero
    have hno : ¬ 0 < durationSeconds (s.GetSnapshot now).Duration := by
      rw [durationSeconds_pos, hzero]
      exact lt_irrefl 0
    rw [hRate, if_neg hno]
  · intro h0
    show s.calculateAcceptanceRatio = 0
    unfold Stats.calculateAcceptanceRatio
    rw [if_pos h0]
  · intro h0
    show s.calculateAcceptanceRatio = _
    unfold Stats.calculateAcceptanceRatio
    rw [if_neg h0]

/-- Witness for the amended C8 at a concrete recorded state. -/
theorem snapshot_derived_witness :
    ((10 : Timestamp) < 20 →
      ((⟨5, 3, 2, 10, 20⟩ : Stats).GetSnapshot 30).Duration =
        max 0 (((20 : Timestamp) : Int) - ((10 : Timestamp) : Int))) ∧
    (¬ (10 : Timestamp) < 20 →
      ((⟨5, 3, 2, 10, 20⟩ : Stats).GetSnapshot 30).Duration =
        ((30 : Timestamp) : Int) - ((10 : Timestamp) : Int)) ∧
    (0 < ((⟨5, 3, 2, 10, 20⟩ : Stats).GetSnapshot 30).Duration →
      ((⟨5, 3, 2, 10, 20⟩ : Stats).GetSnapshot 30).Rate =
        ((3 : Int) : ℚ) / durationSeconds ((⟨5, 3, 2, 10, 20⟩ : Stats).GetSnapshot 30).Duration) ∧
    (((⟨5, 3, 2, 10, 20⟩ : Stats).GetSnapshot 30).Duration = 0 →
      ((⟨5, 3, 2, 10, 20⟩ : Stats).GetSnapshot 30).Rate = 0) ∧
    ((5 : Int) = 0 → ((⟨5, 3, 2, 10, 20⟩ : Stats).GetSnapshot 30).AcceptanceRatio = 0) ∧
    ((5 : Int) ≠ 0 →
      ((⟨5, 3, 2, 10, 20⟩ : Stats).GetSnapshot 30).AcceptanceRatio =
        ((3 : Int) : ℚ) / ((5 : Int) : ℚ)) :=
  snapshot_derived ⟨5, 3, 2, 10, 20⟩ 30

/-- The RateLimiterWithStats decorator: it owns the wrapped limiter state and
a Stats. The wrapped limiter is any admission-check implementation, supplied
as a state type together with its Allow step. -/
structure RateLimiterWithStats (L : Type) where
  limiter : L
  stats : Stats

/-- Allow of the decorator: call the wrapped limiter, record allowed on true
and denied on false, return the wrapped result unchanged. -/
def RateLimiterWithStats.Allow {L : Type} (allowFn : L → Bool × L)
    (r : RateLimiterWithStats L) (now : Timestamp) : Bool × RateLimiterWithStats L :=
  let a := allowFn r.limiter
  if a.1 then (a.1, { limiter := a.2, stats := r.stats.RecordAllowed now })
  else (a.1, { limiter := a.2, stats := r.stats.RecordDenied now })

/-- C9 (decorator non-interference): the decorator returns exactly the boolean
the wrapped limiter returns, leaves the wrapped limiter in exactly the state a
direct call would produce, and records an allowed event precisely on true and
a denied event precisely on false. -/
theorem decorator_non_interference {L : Type} (allowFn : L → Bool × L)
    (r : RateLimiterWithStats L) (now : Timestamp) :
    (RateLimiterWithStats.Allow allowFn r now).1 = (allowFn r.limiter).1 ∧
    (RateLimiterWithStats.Allow allowFn r now).2.limiter = (allowFn r.limiter).2 ∧
    (RateLimiterWithStats.Allow allowFn r now).2.stats =
      (if (allowFn r.limiter).1
       then r.stats.RecordAllowed now
       else r.stats.RecordDenied now) := by
  cases hb : (allowFn r.limiter).1 <;>
    simp [RateLimiterWithStats.Allow, hb]

end RateLimit
